import Mathlib

/-!
Shallow embedding of `ff_bookmarks.py` (a Firefox jsonlz4 → Netscape-HTML
bookmark converter) and proofs about its specification.

Python strings are modelled as `List Char`, the byte contents of a file as
`List Nat`, and the sequence of `output.write` calls performed by the
renderer as a list of `(indent, text)` pairs (each element is one
`write_indented` call; the final file content is their rendering joined in
order).  JSON dictionaries reaching the renderer are modelled by the `Node`
type, which records exactly the fields the program reads.
-/


set_option maxRecDepth 40000

/-! ## Definitions -/

/-- Characters of a string literal; used to write text constants readably. -/
def str (s : String) : List Char := s.data

/-- The double-quote character (written numerically to keep character-level
definitions readable next to string literals that contain escaped quotes). -/
def quoteChar : Char := Char.ofNat 34

/-- The apostrophe character. -/
def aposChar : Char := Char.ofNat 39

/-- The newline character. -/
def nlChar : Char := Char.ofNat 10

/-- A timestamp value as found in the JSON: either a Python `int`, or any
value that is falsy or on which `int()` raises `ValueError`/`TypeError`
(e.g. `None`, a non-numeric string, a list).  A numeric string such as
`"123"` behaves exactly like the corresponding `int` and is represented by
`TsVal.int`. -/
inductive TsVal where
  | int (t : Int) : TsVal
  | nonNumeric : TsVal
deriving DecidableEq, Repr

/-- One entry of a bookmark's `annos` list.  The program only reads the
`name` and `value` keys of entries that are dictionaries; an entry that is
not a dictionary is skipped exactly like one whose `name` differs from
`bookmarkProperties/description`, and is represented here by an `Anno`
whose `name` is `none` or another string. -/
structure Anno where
  name : Option (List Char)
  value : Option (List Char)
deriving DecidableEq, Repr

/-- The value of the `children` key of a node: absent (or JSON null, which
`dict.get` also surfaces as `None`), present but not a list, or a list of
child nodes.  `convert_bookmarks_to_html` treats a node as a folder exactly
in the third case (`children is not None and isinstance(children, list)`). -/
inductive Children (α : Type) where
  | absent : Children α
  | nonList : Children α
  | ofList (cs : List α) : Children α

/-- A bookmark-tree node: the JSON-dictionary fields read by the program.
`none` in an `Option` field means the key is absent. -/
inductive Node where
  | mk (title : Option (List Char)) (uri : Option (List Char))
       (children : Children Node) (typeCode : Option Int)
       (dateAdded : Option TsVal) (lastModified : Option TsVal)
       (annos : Option (List Anno)) : Node

def Node.title : Node → Option (List Char)
  | .mk t _ _ _ _ _ _ => t

def Node.uri : Node → Option (List Char)
  | .mk _ u _ _ _ _ _ => u

def Node.children : Node → Children Node
  | .mk _ _ ch _ _ _ _ => ch

def Node.typeCode : Node → Option Int
  | .mk _ _ _ tc _ _ _ => tc

def Node.dateAdded : Node → Option TsVal
  | .mk _ _ _ _ da _ _ => da

def Node.lastModified : Node → Option TsVal
  | .mk _ _ _ _ _ lm _ => lm

def Node.annos : Node → Option (List Anno)
  | .mk _ _ _ _ _ _ an => an

/-- Signature bytes `b"mozLz4"`. -/
def FIREFOX_LZ4_SIGNATURE : List Nat := (str "mozLz4").map Char.toNat

def FIREFOX_LZ4_HEADER_SIZE : Nat := 12

/-- Ten-megabyte decompression buffer (`10 * 1024 * 1024`). -/
def DEFAULT_BUFFER_SIZE : Nat := 10 * 1024 * 1024

def INDENT_SIZE : Nat := 4

def BOOKMARK_SEPARATOR_TYPE : Int := 3

/-- Python `text.replace(old, new)` for a single-character pattern `old`:
every occurrence of `old` is replaced by `new`. -/
def pyReplace (old : Char) (new : List Char) (s : List Char) : List Char :=
  s.flatMap (fun c => if c = old then new else [c])

/-- Embedding of `html_escape`: the five sequential `str.replace` calls of
the source, ampersand first; the guard `if not text: return ""` is the
empty-list test.  `quoteChar` and `aposChar` are `"` and `'`. -/
def html_escape (text : List Char) : List Char :=
  if text = [] then []
  else
    pyReplace aposChar (str "&#x27;")
      (pyReplace quoteChar (str "&quot;")
        (pyReplace '>' (str "&gt;")
          (pyReplace '<' (str "&lt;")
            (pyReplace '&' (str "&amp;") text))))

/-- Round the rational `n / d` (with `d ≠ 0`) to the nearest integer, ties
to even. -/
def roundHalfEven (n d : Nat) : Nat :=
  let q := n / d
  let r := n % d
  if 2 * r < d then q
  else if d < 2 * r then q + 1
  else if q % 2 = 0 then q else q + 1

/-- Floor of the base-2 logarithm, with an explicit recursion budget so
that the definition is structurally recursive (and therefore computable
inside the kernel): `log2Fuel fuel n` equals the floor of `log2 n` for all
`1 ≤ n < 2 ^ fuel`. -/
def log2Fuel : Nat → Nat → Nat
  | 0, _ => 0
  | fuel + 1, n => if n < 2 then 0 else log2Fuel fuel (n / 2) + 1

/-- The binade exponent of the positive rational `a / b`: the unique `e`
with `2 ^ e ≤ a / b < 2 ^ (e + 1)`, computed by scaling `a` up by `2 ^ 64`
so that the intermediate quotient stays above `1`.  The budget of 2048
recursion steps covers every quotient below the binary64 overflow
threshold (`2 ^ 1024`) with room to spare. -/
def binExp (a b : Nat) : Int :=
  (log2Fuel 2048 (a * 2 ^ 64 / b) : Int) - 64

/-- The 53-bit significand of the binary64 rounding of `a / b`: the value
`roundHalfEven (a / b * 2 ^ (52 - e))` for `e = binExp a b`, so that the
rounded double equals `mantissaOf a b * 2 ^ (e - 52)`. -/
def mantissaOf (a b : Nat) : Nat :=
  let e := binExp a b
  if e ≤ 52 then roundHalfEven (a * 2 ^ (52 - e).toNat) b
  else roundHalfEven a (b * 2 ^ (e - 52).toNat)

/-- Floor of the binary64 rounding of `a / b`, for `a > 0`. -/
def floorRoundedDiv (a b : Nat) : Nat :=
  let e := binExp a b
  let m := mantissaOf a b
  if 52 ≤ e then m * 2 ^ (e - 52).toNat else m / 2 ^ (52 - e).toNat

/-- Ceiling of the binary64 rounding of `a / b`, for `a > 0`. -/
def ceilRoundedDiv (a b : Nat) : Nat :=
  let e := binExp a b
  let m := mantissaOf a b
  if 52 ≤ e then m * 2 ^ (e - 52).toNat
  else (m + 2 ^ (52 - e).toNat - 1) / 2 ^ (52 - e).toNat

/-- Value of Python `math.floor(a / b)` where `/` is binary64 true division
on integers (`b > 0`); the negative case uses `floor (-x) = -(ceil x)` and
the sign-symmetry of round-to-nearest. -/
def floorFloatDiv (a : Int) (b : Nat) : Int :=
  if 0 ≤ a then (floorRoundedDiv a.toNat b : Int)
  else -(ceilRoundedDiv a.natAbs b : Int)

/-- Embedding of `convert_firefox_timestamp`: falsy (`0`) or unconvertible
input yields the empty string; otherwise the decimal rendering of
`math.floor(int(timestamp) / 1000000)`. -/
def convert_firefox_timestamp : TsVal → List Char
  | .int t => if t = 0 then [] else str (toString (floorFloatDiv t 1000000))
  | .nonNumeric => []

/-- Embedding of `format_date_attributes`: the `ADD_DATE` fragment (emitted
iff `dateAdded` is present and converts to a non-empty string) followed by
the `LAST_MODIFIED` fragment. -/
def format_date_attributes (data : Node) : List Char :=
  (match data.dateAdded with
   | some ts =>
       let date_added := convert_firefox_timestamp ts
       if date_added = [] then []
       else str " ADD_DATE=\"" ++ date_added ++ [quoteChar]
   | none => []) ++
  (match data.lastModified with
   | some ts =>
       let last_modified := convert_firefox_timestamp ts
       if last_modified = [] then []
       else str " LAST_MODIFIED=\"" ++ last_modified ++ [quoteChar]
   | none => [])

/-- One `write_indented` call: indentation level and the text written on
that call (the text of the document header spans several lines). -/
abbrev BWrite := Nat × List Char

/-- Embedding of `write_indented`: the string actually written to the
output stream for one recorded write. -/
def write_indented (indent : Nat) (text : List Char) : List Char :=
  List.replicate (INDENT_SIZE * indent) ' ' ++ text ++ [nlChar]

/-- The full output-file content produced by a sequence of writes. -/
def renderOut (ws : List BWrite) : List Char :=
  (ws.map (fun w => write_indented w.1 w.2)).flatten

/-- Embedding of `write_html_header`: a single write (at indent 0) of the
fixed preamble with the escaped title interpolated into the `<H1>` element;
the `<TITLE>` element is the fixed text `Bookmarks`. -/
def write_html_header (title : List Char) : List BWrite :=
  [(0, str "<!DOCTYPE NETSCAPE-Bookmark-file-1>\n<!-- This is an automatically generated file.\n    It will be read and overwritten.\n    DO NOT EDIT! -->\n<META HTTP-EQUIV=\"Content-Type\" CONTENT=\"text/html; charset=UTF-8\">\n<TITLE>Bookmarks</TITLE>\n<H1>"
      ++ html_escape title ++ str "</H1>\n<DL><p>")]

/-- Embedding of `write_folder`: heading line with date attributes and
escaped title (`data.get('title', '')`), then the opening list tag. -/
def write_folder (data : Node) (indent : Nat) : List BWrite :=
  let title := html_escape (data.title.getD [])
  let date_attrs := format_date_attributes data
  [(indent, str "<DT><H3" ++ date_attrs ++ str ">" ++ title ++ str "</H3>"),
   (indent, str "<DL><p>")]

/-- Embedding of `write_bookmark`: the anchor line (escaped
`data.get('uri', '')`, date attributes, escaped title defaulting to the
uri), followed by one `<DD>` line per `annos` entry whose `name` is
`bookmarkProperties/description`. -/
def write_bookmark (data : Node) (indent : Nat) : List BWrite :=
  let uri := data.uri.getD []
  let title := html_escape (data.title.getD uri)
  let date_attrs := format_date_attributes data
  (indent, str "<DT><A HREF=\"" ++ html_escape uri ++ [quoteChar]
     ++ date_attrs ++ str ">" ++ title ++ str "</A>") ::
  (match data.annos with
   | some annos =>
       (annos.filter
          (fun a => a.name = some (str "bookmarkProperties/description"))).map
         (fun a => (indent, str "<DD>" ++ html_escape (a.value.getD [])))
   | none => [])

mutual

/-- Embedding of `convert_bookmarks_to_html`: a node with a list-valued
`children` is a folder (the document header at indent 0, a folder heading
otherwise), its children are processed in order by `convertChildren`, and
the list is closed; otherwise a node with a `uri` is a bookmark; otherwise
nothing is written. -/
def convert_bookmarks_to_html : Node → Nat → List BWrite
  | data@(.mk ttl uri ch _tc _da _lm _an), indent =>
    match ch with
    | .ofList cs =>
        (if indent = 0 then
           write_html_header (ttl.getD (str "Bookmarks Menu"))
         else
           write_folder data indent)
        ++ convertChildren cs (indent + 1)
        ++ [(indent, str "</DL><p>")]
    | _ =>
      match uri with
      | some _ => write_bookmark data indent
      | none => []

/-- The `for child in children` loop body of `convert_bookmarks_to_html`:
a child whose `typeCode` equals `BOOKMARK_SEPARATOR_TYPE` is skipped
(`continue`), every other child is rendered recursively. -/
def convertChildren : List Node → Nat → List BWrite
  | [], _ => []
  | c :: cs, indent =>
      (if c.typeCode = some BOOKMARK_SEPARATOR_TYPE then []
       else convert_bookmarks_to_html c indent)
      ++ convertChildren cs indent

end

/-- Embedding of `is_valid_jsonlz4_file`: the first `len(FIREFOX_LZ4_SIGNATURE)`
bytes of the file equal the signature. -/
def is_valid_jsonlz4_file (file : List Nat) : Bool :=
  decide (file.take FIREFOX_LZ4_SIGNATURE.length = FIREFOX_LZ4_SIGNATURE)

/-- Embedding of `decompress_jsonlz4`, parameterised by the external
decompression primitive `lz4_decompress` (compressed bytes and
`uncompressed_size` in, decompressed bytes or failure out) and the JSON
parser `json_loads`.  The file handle is seeked to
`FIREFOX_LZ4_HEADER_SIZE`, so the primitive receives `file.drop 12`.  The
source reports failures through `err(...)` followed by `sys.exit(1)`;
here they are returned as `Except.error` carrying the message text and
turned into the exit outcome by `main`. -/
def decompress_jsonlz4
    (lz4_decompress : List Nat → Nat → Except (List Char) (List Nat))
    (json_loads : List Nat → Except (List Char) Node)
    (file : List Nat) : Except (List Char) Node :=
  let compressed_data := file.drop FIREFOX_LZ4_HEADER_SIZE
  match lz4_decompress compressed_data DEFAULT_BUFFER_SIZE with
  | .error e => .error (str "LZ4 decompression error: " ++ e)
  | .ok decompressed_data =>
      match json_loads decompressed_data with
      | .error e => .error (str "JSON parsing error: " ++ e)
      | .ok data => .ok data

/-- Result of a run of `main`: either the output file was opened and
written with the given content and the process exited 0, or the process
exited with status 1 after printing the given message to stderr (prefixed
by `sys.argv[0]` in the source), without the output file ever being
opened. -/
inductive Outcome where
  | wrote (content : List Char) : Outcome
  | exited (message : List Char) : Outcome
deriving DecidableEq, Repr

/-- Embedding of the conversion pipeline of `main`: classify the input by
signature, load it (a `SystemExit` raised by `err` inside the loader is not
caught by the `except Exception` handler, so a load failure exits before
the output file is opened), then open the output file and write the
rendered HTML.  The plain-JSON fallback is collapsed to one `json_loads`
attempt; its error message in the source names the input file. -/
def ff_bookmarks.main
    (lz4_decompress : List Nat → Nat → Except (List Char) (List Nat))
    (json_loads : List Nat → Except (List Char) Node)
    (file : List Nat) : Outcome :=
  if is_valid_jsonlz4_file file then
    match decompress_jsonlz4 lz4_decompress json_loads file with
    | .error msg => .exited msg
    | .ok bookmark_data =>
        .wrote (renderOut (convert_bookmarks_to_html bookmark_data 0))
  else
    match json_loads file with
    | .ok bookmark_data =>
        .wrote (renderOut (convert_bookmarks_to_html bookmark_data 0))
    | .error _ =>
        .exited (str "is not a valid Firefox bookmark backup file (.jsonlz4) or JSON file.")

/-- The list of HREF values of the anchor elements among a sequence of
writes: a write is an anchor line iff its text begins with the thirteen
characters of the anchor opening, and its HREF value is the text from
position 13 up to the closing quote. -/
def anchorHref (w : BWrite) : Option (List Char) :=
  if (str "<DT><A HREF=\"").isPrefixOf w.2 then
    some ((w.2.drop 13).takeWhile (fun c => !(c == quoteChar)))
  else none

/-- All anchor HREF values of a write sequence, in output order. -/
def anchorsOf (ws : List BWrite) : List (List Char) :=
  ws.filterMap anchorHref

/-- Whether `pat` occurs contiguously anywhere inside `s`. -/
def containsSub (pat : List Char) : List Char → Bool
  | [] => pat.isPrefixOf ([] : List Char)
  | c :: rest => pat.isPrefixOf (c :: rest) || containsSub pat rest

/-- Every ampersand in the list begins one of the five entities produced by
`html_escape` (`&amp;` `&lt;` `&gt;` `&quot;` `&#x27;`). -/
def entityOk : List Char → Bool
  | [] => true
  | c :: rest =>
      if c = '&' then
        ((str "amp;").isPrefixOf rest && entityOk (rest.drop 4)) ||
        ((str "lt;").isPrefixOf rest && entityOk (rest.drop 3)) ||
        ((str "gt;").isPrefixOf rest && entityOk (rest.drop 3)) ||
        ((str "quot;").isPrefixOf rest && entityOk (rest.drop 5)) ||
        ((str "#x27;").isPrefixOf rest && entityOk (rest.drop 5))
      else entityOk rest
termination_by l => l.length
decreasing_by
  all_goals simp [List.length_drop]
  all_goals omega

mutual

/-- The depth-first, left-to-right list of `uri` values of the nodes that
`convert_bookmarks_to_html` actually renders as bookmark anchors: a node
with a list-valued `children` is a folder and contributes only its
children's bookmarks (separator children and their subtrees are dropped);
any other node contributes its `uri` if it has one. -/
def renderedUris : Node → List (List Char)
  | .mk _t u ch _tc _da _lm _an =>
    match ch with
    | .ofList cs => renderedUrisList cs
    | _ =>
      match u with
      | some uri => [uri]
      | none => []

/-- List version of `renderedUris` with the separator skip of the
renderer's child loop. -/
def renderedUrisList : List Node → List (List Char)
  | [] => []
  | c :: cs =>
      (if c.typeCode = some BOOKMARK_SEPARATOR_TYPE then [] else renderedUris c)
      ++ renderedUrisList cs

end

mutual

/-- Modelled from the claim's words, for comparison with the code: the
depth-first pre-order list of `uri` values of every non-separator node of
the tree that has a `uri` field, with separator nodes (and their subtrees)
removed. -/
def claimedUris : Node → List (List Char)
  | .mk _t u ch tc _da _lm _an =>
    if tc = some BOOKMARK_SEPARATOR_TYPE then []
    else
      (match u with
       | some uri => [uri]
       | none => []) ++
      (match ch with
       | .ofList cs => claimedUrisList cs
       | _ => [])

/-- List version of `claimedUris`. -/
def claimedUrisList : List Node → List (List Char)
  | [] => []
  | c :: cs => claimedUris c ++ claimedUrisList cs

end

/-- The five-stage replacement pipeline of `html_escape`, without the
emptiness guard (on the empty list both agree). -/
def escPipeline (text : List Char) : List Char :=
  pyReplace aposChar (str "&#x27;")
    (pyReplace quoteChar (str "&quot;")
      (pyReplace '>' (str "&gt;")
        (pyReplace '<' (str "&lt;")
          (pyReplace '&' (str "&amp;") text))))

/-- What the pipeline does to one input character. -/
def escChar (c : Char) : List Char :=
  if c = '&' then str "&amp;"
  else if c = '<' then str "&lt;"
  else if c = '>' then str "&gt;"
  else if c = quoteChar then str "&quot;"
  else if c = aposChar then str "&#x27;"
  else [c]

/-- Concrete node carrying both a list-valued `children` and a `uri`. -/
def bothNode : Node :=
  .mk (some (str "Both")) (some (str "https://both.example"))
    (.ofList []) none none none none

/-- Root node with a title and an empty children list. -/
def myStuffRoot : Node :=
  .mk (some (str "My Stuff")) none (.ofList []) none none none none

/-- Root node whose `typeCode` is the separator sentinel. -/
def sepRoot : Node :=
  .mk none none (.ofList []) (some 3) none none none

/-- Root node with a title but no `children` key and no `uri`. -/
def titleOnlyRoot : Node :=
  .mk (some (str "X")) none .absent none none none none

/-- A concrete container file: the 6-byte signature, six further header
bytes, then eight payload bytes spelling `ABCDEFGH`. -/
def c6File : List Nat :=
  FIREFOX_LZ4_SIGNATURE ++ [0, 0, 0, 0, 0, 0] ++ (str "ABCDEFGH").map Char.toNat

/-- All HREF values of anchor openings occurring in a character stream, in
order. -/
def hrefsIn : List Char → List (List Char)
  | [] => []
  | c :: rest =>
      if (str "<DT><A HREF=\"").isPrefixOf (c :: rest) then
        ((c :: rest).drop 13).takeWhile (fun x => !(x == quoteChar))
          :: hrefsIn rest
      else hrefsIn rest

/-! ## Helper lemmas -/

theorem html_escape_eq_escPipeline (s : List Char) :
    html_escape s = escPipeline s := by
  cases s with
  | nil => rfl
  | cons c cs => rfl

theorem escPipeline_eq_flatMap (s : List Char) :
    escPipeline s = s.flatMap escChar := by
  induction s with
  | nil => rfl
  | cons c cs ih =>
    have hsplit : escPipeline (c :: cs) =
        escPipeline [c] ++ escPipeline cs := by
      simp only [escPipeline, pyReplace, List.flatMap_cons, List.flatMap_nil,
        List.flatMap_append, List.append_nil]
    rw [hsplit, ih, List.flatMap_cons]
    congr 1
    by_cases h1 : c = '&'
    · subst h1; rfl
    · by_cases h2 : c = '<'
      · subst h2; rfl
      · by_cases h3 : c = '>'
        · subst h3; rfl
        · by_cases h4 : c = quoteChar
          · subst h4; rfl
          · by_cases h5 : c = aposChar
            · subst h5; rfl
            · simp [escPipeline, pyReplace, escChar, h1, h2, h3, h4, h5]

theorem html_escape_eq_flatMap (s : List Char) :
    html_escape s = s.flatMap escChar := by
  rw [html_escape_eq_escPipeline, escPipeline_eq_flatMap]

theorem mem_escChar_not_special {c x : Char} (hx : x ∈ escChar c) :
    x ≠ '<' ∧ x ≠ '>' ∧ x ≠ quoteChar ∧ x ≠ aposChar := by
  by_cases h1 : c = '&'
  · subst h1; simp [escChar, str] at hx
    rcases hx with rfl | rfl | rfl | rfl | rfl <;> decide
  · by_cases h2 : c = '<'
    · subst h2; simp [escChar, str] at hx
      rcases hx with rfl | rfl | rfl | rfl <;> decide
    · by_cases h3 : c = '>'
      · subst h3; simp [escChar, str] at hx
        rcases hx with rfl | rfl | rfl | rfl <;> decide
      · by_cases h4 : c = quoteChar
        · subst h4; simp [escChar, str, quoteChar] at hx
          rcases hx with rfl | rfl | rfl | rfl | rfl | rfl <;> decide
        · by_cases h5 : c = aposChar
          · subst h5; simp [escChar, str, quoteChar, aposChar] at hx
            rcases hx with rfl | rfl | rfl | rfl | rfl | rfl <;> decide
          · simp only [escChar, h1, h2, h3, h4, h5, if_false,
              List.mem_singleton, if_neg] at hx
            subst hx
            exact ⟨h2, h3, h4, h5⟩

theorem mem_html_escape_not_special {s : List Char} {x : Char}
    (hx : x ∈ html_escape s) :
    x ≠ '<' ∧ x ≠ '>' ∧ x ≠ quoteChar ∧ x ≠ aposChar := by
  rw [html_escape_eq_flatMap] at hx
  obtain ⟨c, _, hc⟩ := List.mem_flatMap.mp hx
  exact mem_escChar_not_special hc

theorem entityOk_escChar_append (c : Char) (rest : List Char)
    (h : entityOk rest = true) : entityOk (escChar c ++ rest) = true := by
  by_cases h1 : c = '&'
  · subst h1
    show entityOk ('&' :: ('a' :: 'm' :: 'p' :: ';' :: rest)) = true
    rw [entityOk]
    simp [str, List.isPrefixOf, h]
  · by_cases h2 : c = '<'
    · subst h2
      show entityOk ('&' :: ('l' :: 't' :: ';' :: rest)) = true
      rw [entityOk]
      simp [str, List.isPrefixOf, h]
    · by_cases h3 : c = '>'
      · subst h3
        show entityOk ('&' :: ('g' :: 't' :: ';' :: rest)) = true
        rw [entityOk]
        simp [str, List.isPrefixOf, h]
      · by_cases h4 : c = quoteChar
        · subst h4
          show entityOk ('&' :: ('q' :: 'u' :: 'o' :: 't' :: ';' :: rest)) = true
          rw [entityOk]
          simp [str, List.isPrefixOf, h]
        · by_cases h5 : c = aposChar
          · subst h5
            show entityOk ('&' :: ('#' :: 'x' :: '2' :: '7' :: ';' :: rest)) = true
            rw [entityOk]
            simp [str, List.isPrefixOf, h]
          · have hc : escChar c = [c] := by
              simp [escChar, h1, h2, h3, h4, h5]
            rw [hc]
            show entityOk (c :: rest) = true
            rw [entityOk]
            simp [h1, h]

theorem entityOk_html_escape (s : List Char) :
    entityOk (html_escape s) = true := by
  rw [html_escape_eq_flatMap]
  induction s with
  | nil => simp [entityOk]
  | cons c cs ih =>
    rw [List.flatMap_cons]
    exact entityOk_escChar_append c _ ih

theorem anchorsOf_append (a b : List BWrite) :
    anchorsOf (a ++ b) = anchorsOf a ++ anchorsOf b :=
  List.filterMap_append a b anchorHref

theorem takeWhile_all_append_stop {p : Char → Bool} {xs : List Char}
    (c : Char) (ys : List Char) (hxs : ∀ x ∈ xs, p x = true)
    (hc : p c = false) :
    (xs ++ c :: ys).takeWhile p = xs := by
  rw [List.takeWhile_append]
  rw [List.takeWhile_eq_self_iff.mpr hxs]
  simp [List.takeWhile_cons_of_neg, hc]

theorem anchorHref_bookmark_line (indent : Nat) (u rest : List Char) :
    anchorHref (indent, str "<DT><A HREF=\"" ++ html_escape u
      ++ [quoteChar] ++ rest) = some (html_escape u) := by
  have hpre : (str "<DT><A HREF=\"").isPrefixOf
      (str "<DT><A HREF=\"" ++ html_escape u ++ [quoteChar] ++ rest) = true := by
    rw [List.isPrefixOf_iff_prefix]
    rw [List.append_assoc, List.append_assoc]
    exact List.prefix_append _ _
  unfold anchorHref
  rw [hpre]
  simp only [if_true]
  congr 1
  have hdrop : (str "<DT><A HREF=\"" ++ html_escape u
      ++ [quoteChar] ++ rest).drop 13 = html_escape u ++ [quoteChar] ++ rest := by
    rw [List.append_assoc, List.append_assoc]
    have h13 : (str "<DT><A HREF=\"").length = 13 := by decide
    rw [← h13, List.drop_left]
    rw [← List.append_assoc]
  rw [hdrop, List.append_assoc]
  simp only [List.cons_append, List.nil_append]
  apply takeWhile_all_append_stop
  · intro x hx
    have := (mem_html_escape_not_special hx).2.2.1
    simp [this]
  · simp

theorem anchorsOf_dd (indent : Nat) (l : List Anno) :
    List.filterMap anchorHref
      (l.map (fun a => (indent, str "<DD>" ++ html_escape (a.value.getD [])))) = [] := by
  induction l with
  | nil => rfl
  | cons a as iha =>
    rw [List.map_cons, List.filterMap_cons]
    have hdd : anchorHref (indent, str "<DD>"
        ++ html_escape (a.value.getD [])) = none := rfl
    rw [hdd]
    exact iha

theorem anchorsOf_write_bookmark (data : Node) (indent : Nat) :
    anchorsOf (write_bookmark data indent) =
      [html_escape (data.uri.getD [])] := by
  unfold write_bookmark anchorsOf
  rw [List.filterMap_cons]
  have hline := anchorHref_bookmark_line indent (data.uri.getD [])
    (format_date_attributes data ++ str ">"
      ++ html_escape (data.title.getD (data.uri.getD [])) ++ str "</A>")
  rw [show str "<DT><A HREF=\"" ++ html_escape (data.uri.getD [])
        ++ [quoteChar] ++ (format_date_attributes data ++ str ">"
        ++ html_escape (data.title.getD (data.uri.getD [])) ++ str "</A>")
      = str "<DT><A HREF=\"" ++ html_escape (data.uri.getD [])
        ++ [quoteChar] ++ format_date_attributes data ++ str ">"
        ++ html_escape (data.title.getD (data.uri.getD [])) ++ str "</A>"
      by simp [List.append_assoc]] at hline
  rw [hline]
  cases data.annos with
  | none => rfl
  | some annos =>
    show html_escape (data.uri.getD []) ::
        List.filterMap anchorHref
          ((annos.filter
             (fun a => a.name = some (str "bookmarkProperties/description"))).map
            (fun a => (indent, str "<DD>" ++ html_escape (a.value.getD []))))
      = [html_escape (data.uri.getD [])]
    rw [anchorsOf_dd]

theorem anchorsOf_write_html_header (title : List Char) :
    anchorsOf (write_html_header title) = [] := rfl

theorem anchorsOf_write_folder (data : Node) (indent : Nat) :
    anchorsOf (write_folder data indent) = [] := rfl

theorem anchorsOf_close_line (indent : Nat) :
    anchorsOf [(indent, str "</DL><p>")] = [] := rfl

mutual

theorem anchorsOf_convert (n : Node) (i : Nat) :
    anchorsOf (convert_bookmarks_to_html n i) =
      (renderedUris n).map html_escape := by
  cases n with
  | mk t u ch tc da lm an =>
    cases ch with
    | ofList cs =>
        rw [show convert_bookmarks_to_html (.mk t u (.ofList cs) tc da lm an) i
            = (if i = 0 then
                 write_html_header (t.getD (str "Bookmarks Menu"))
               else
                 write_folder (.mk t u (.ofList cs) tc da lm an) i)
              ++ convertChildren cs (i + 1)
              ++ [(i, str "</DL><p>")] from by
          simp [convert_bookmarks_to_html]]
        rw [anchorsOf_append, anchorsOf_append]
        rw [anchorsOf_convertChildren cs (i + 1), anchorsOf_close_line]
        have hfirst : anchorsOf (if i = 0 then
            write_html_header (t.getD (str "Bookmarks Menu"))
          else write_folder (.mk t u (.ofList cs) tc da lm an) i) = [] := by
          by_cases hi : i = 0
          · rw [if_pos hi]; rfl
          · rw [if_neg hi]; rfl
        rw [hfirst]
        rw [show renderedUris (.mk t u (.ofList cs) tc da lm an)
            = renderedUrisList cs from by simp [renderedUris]]
        simp
    | absent =>
        cases u with
        | some uri =>
            rw [show convert_bookmarks_to_html (.mk t (some uri) .absent tc da lm an) i
                = write_bookmark (.mk t (some uri) .absent tc da lm an) i from by
              simp [convert_bookmarks_to_html]]
            rw [anchorsOf_write_bookmark]
            rfl
        | none => rfl
    | nonList =>
        cases u with
        | some uri =>
            rw [show convert_bookmarks_to_html (.mk t (some uri) .nonList tc da lm an) i
                = write_bookmark (.mk t (some uri) .nonList tc da lm an) i from by
              simp [convert_bookmarks_to_html]]
            rw [anchorsOf_write_bookmark]
            rfl
        | none => rfl

theorem anchorsOf_convertChildren (cs : List Node) (i : Nat) :
    anchorsOf (convertChildren cs i) =
      (renderedUrisList cs).map html_escape := by
  cases cs with
  | nil => rfl
  | cons c cs' =>
      rw [show convertChildren (c :: cs') i
          = (if c.typeCode = some BOOKMARK_SEPARATOR_TYPE then []
             else convert_bookmarks_to_html c i) ++ convertChildren cs' i from by
        simp [convertChildren]]
      rw [anchorsOf_append, anchorsOf_convertChildren cs' i]
      rw [show renderedUrisList (c :: cs')
          = (if c.typeCode = some BOOKMARK_SEPARATOR_TYPE then []
             else renderedUris c) ++ renderedUrisList cs' from by
        simp [renderedUrisList]]
      by_cases hc : c.typeCode = some BOOKMARK_SEPARATOR_TYPE
      · rw [if_pos hc, if_pos hc]
        rfl
      · rw [if_neg hc, if_neg hc]
        rw [List.map_append, anchorsOf_convert c i]

end

theorem hrefsIn_no_lt_append {s : List Char} (rest : List Char)
    (h : ∀ c ∈ s, c ≠ '<') :
    hrefsIn (s ++ rest) = hrefsIn rest := by
  induction s with
  | nil => rfl
  | cons c s' ih =>
    have hc : c ≠ '<' := h c (List.mem_cons_self c s')
    rw [List.cons_append, hrefsIn]
    rw [show (str "<DT><A HREF=\"").isPrefixOf (c :: (s' ++ rest)) = false from by
      show (('<' == c) && _) = false
      have : ('<' == c) = false := by
        simp [BEq.beq]
        exact fun hq => hc hq.symm
      rw [this, Bool.false_and]]
    simp only [Bool.false_eq_true, if_false]
    exact ih (fun x hx => h x (List.mem_cons_of_mem c hx))

/-- Every character of a decimal digit rendering is a digit. -/
theorem toDigitsCore_chars (fuel n : Nat) (acc : List Char)
    (hacc : ∀ c ∈ acc, c ∈ str "0123456789") :
    ∀ c ∈ Nat.toDigitsCore 10 fuel n acc, c ∈ str "0123456789" := by
  induction fuel generalizing n acc with
  | zero => exact hacc
  | succ fuel ih =>
    rw [Nat.toDigitsCore]
    have hd : (n % 10).digitChar ∈ str "0123456789" := by
      have : n % 10 < 10 := Nat.mod_lt n (by omega)
      interval_cases h : n % 10 <;> decide
    by_cases hz : n / 10 = 0
    · simp only [hz, if_pos rfl]
      intro c hc
      rcases List.mem_cons.mp hc with rfl | hc
      · exact hd
      · exact hacc c hc
    · rw [if_neg hz]
      exact ih (n / 10) _ (fun c hc => by
        rcases List.mem_cons.mp hc with rfl | hc
        · exact hd
        · exact hacc c hc)

/-- Every character of `toString` of an integer is a digit or the minus
sign. -/
theorem toString_int_chars (i : Int) :
    ∀ c ∈ (toString i).data, c ∈ str "-0123456789" := by
  have hnat : ∀ n : Nat, ∀ c ∈ (Nat.toDigits 10 n), c ∈ str "0123456789" :=
    fun n => toDigitsCore_chars (n + 1) n [] (by intro c hc; cases hc)
  have hsub : ∀ c : Char, c ∈ str "0123456789" → c ∈ str "-0123456789" :=
    fun c hc => List.mem_cons_of_mem '-' hc
  intro c hc
  cases i with
  | ofNat m =>
      exact hsub c (hnat m c hc)
  | negSucc m =>
      have hdata : (toString (Int.negSucc m)).data =
          '-' :: Nat.toDigits 10 (m + 1) := rfl
      rw [hdata] at hc
      rcases List.mem_cons.mp hc with rfl | h
      · decide
      · exact hsub c (hnat (m + 1) c h)

theorem convert_ts_chars (ts : TsVal) :
    ∀ c ∈ convert_firefox_timestamp ts, c ∈ str "-0123456789" := by
  cases ts with
  | nonNumeric => intro c hc; cases hc
  | int t =>
      by_cases ht : t = 0
      · rw [convert_firefox_timestamp, if_pos ht]
        intro c hc; cases hc
      · rw [convert_firefox_timestamp, if_neg ht]
        exact toString_int_chars (floorFloatDiv t 1000000)

theorem format_date_attributes_no_lt (d : Node) :
    ∀ c ∈ format_date_attributes d, c ≠ '<' := by
  have hfix1 : ∀ c ∈ str " ADD_DATE=\"", c ≠ '<' := by decide
  have hfix2 : ∀ c ∈ str " LAST_MODIFIED=\"", c ≠ '<' := by decide
  have hq : quoteChar ≠ '<' := by decide
  have hts : ∀ ts : TsVal, ∀ c ∈ convert_firefox_timestamp ts, c ≠ '<' := by
    intro ts c hc heq
    subst heq
    have := convert_ts_chars ts '<' hc
    revert this
    decide
  intro c hc
  rw [format_date_attributes] at hc
  rcases List.mem_append.mp hc with h | h
  · revert h
    cases d.dateAdded with
    | none => intro h; cases h
    | some ts =>
        simp only []
        by_cases he : convert_firefox_timestamp ts = []
        · rw [if_pos he]; intro h; cases h
        · rw [if_neg he]
          intro h
          rcases List.mem_append.mp h with h2 | h2
          · rcases List.mem_append.mp h2 with h3 | h3
            · exact hfix1 c h3
            · exact hts ts c h3
          · rcases List.mem_singleton.mp h2 with rfl
            exact hq
  · revert h
    cases d.lastModified with
    | none => intro h; cases h
    | some ts =>
        simp only []
        by_cases he : convert_firefox_timestamp ts = []
        · rw [if_pos he]; intro h; cases h
        · rw [if_neg he]
          intro h
          rcases List.mem_append.mp h with h2 | h2
          · rcases List.mem_append.mp h2 with h3 | h3
            · exact hfix2 c h3
            · exact hts ts c h3
          · rcases List.mem_singleton.mp h2 with rfl
            exact hq

theorem hrefsIn_spaces (k : Nat) (X : List Char) :
    hrefsIn (List.replicate k ' ' ++ X) = hrefsIn X :=
  hrefsIn_no_lt_append X (by
    intro _c hc
    rw [List.eq_of_mem_replicate hc]
    exact fun h => by cases h)

theorem hrefsIn_escape (t X : List Char) :
    hrefsIn (html_escape t ++ X) = hrefsIn X :=
  hrefsIn_no_lt_append X (fun _c hc => (mem_html_escape_not_special hc).1)

theorem hrefsIn_attrs (d : Node) (X : List Char) :
    hrefsIn (format_date_attributes d ++ X) = hrefsIn X :=
  hrefsIn_no_lt_append X (format_date_attributes_no_lt d)

theorem hrefsIn_nl (X : List Char) : hrefsIn (nlChar :: X) = hrefsIn X := rfl

theorem hrefsIn_quote (X : List Char) :
    hrefsIn (quoteChar :: X) = hrefsIn X := rfl

theorem hrefsIn_header_pre (X : List Char) :
    hrefsIn (str "<!DOCTYPE NETSCAPE-Bookmark-file-1>\n<!-- This is an automatically generated file.\n    It will be read and overwritten.\n    DO NOT EDIT! -->\n<META HTTP-EQUIV=\"Content-Type\" CONTENT=\"text/html; charset=UTF-8\">\n<TITLE>Bookmarks</TITLE>\n<H1>" ++ X)
      = hrefsIn X := rfl

theorem hrefsIn_header_post (X : List Char) :
    hrefsIn (str "</H1>\n<DL><p>" ++ X) = hrefsIn X := rfl

theorem hrefsIn_folder_pre (X : List Char) :
    hrefsIn (str "<DT><H3" ++ X) = hrefsIn X := rfl

theorem hrefsIn_gt (X : List Char) :
    hrefsIn (str ">" ++ X) = hrefsIn X := rfl

theorem hrefsIn_close_h3 (X : List Char) :
    hrefsIn (str "</H3>" ++ X) = hrefsIn X := rfl

theorem hrefsIn_dl_open (X : List Char) :
    hrefsIn (str "<DL><p>" ++ X) = hrefsIn X := rfl

theorem hrefsIn_close_line (X : List Char) :
    hrefsIn (str "</DL><p>" ++ X) = hrefsIn X := rfl

theorem hrefsIn_dd_pre (X : List Char) :
    hrefsIn (str "<DD>" ++ X) = hrefsIn X := rfl

theorem hrefsIn_close_a (X : List Char) :
    hrefsIn (str "</A>" ++ X) = hrefsIn X := rfl

theorem hrefsIn_mark_rest (X : List Char) :
    hrefsIn (str "DT><A HREF=\"" ++ X) = hrefsIn X := rfl

theorem hrefsIn_at_mark (Y : List Char) :
    hrefsIn (str "<DT><A HREF=\"" ++ Y) =
      (Y.takeWhile (fun x => !(x == quoteChar)))
        :: hrefsIn (str "DT><A HREF=\"" ++ Y) := by
  rw [show str "<DT><A HREF=\"" ++ Y
      = '<' :: (str "DT><A HREF=\"" ++ Y) from rfl]
  rw [hrefsIn]
  have hpre : (str "<DT><A HREF=\"").isPrefixOf
      ('<' :: (str "DT><A HREF=\"" ++ Y)) = true := by
    rw [List.isPrefixOf_iff_prefix]
    exact List.prefix_append (str "<DT><A HREF=\"") Y
  rw [hpre]
  simp only [if_true]
  congr 1

theorem renderOut_append (a b : List BWrite) :
    renderOut (a ++ b) = renderOut a ++ renderOut b := by
  simp [renderOut, List.map_append, List.flatten_append]

theorem hrefsIn_header_chunk (t rest : List Char) :
    hrefsIn (renderOut (write_html_header t) ++ rest) = hrefsIn rest := by
  simp only [renderOut, write_html_header, write_indented, List.map_cons,
    List.map_nil, List.flatten_cons, List.flatten_nil, List.append_nil,
    Nat.mul_zero, List.replicate_zero, List.nil_append, List.append_assoc,
    List.cons_append, List.singleton_append]
  rw [hrefsIn_header_pre, hrefsIn_escape, hrefsIn_header_post, hrefsIn_nl]

theorem hrefsIn_folder_chunk (d : Node) (i : Nat) (rest : List Char) :
    hrefsIn (renderOut (write_folder d i) ++ rest) = hrefsIn rest := by
  simp only [renderOut, write_folder, write_indented, List.map_cons,
    List.map_nil, List.flatten_cons, List.flatten_nil, List.append_nil,
    List.nil_append, List.append_assoc, List.cons_append,
    List.singleton_append]
  rw [hrefsIn_spaces, hrefsIn_folder_pre, hrefsIn_attrs, hrefsIn_gt,
    hrefsIn_escape, hrefsIn_close_h3, hrefsIn_nl, hrefsIn_spaces,
    hrefsIn_dl_open, hrefsIn_nl]

theorem hrefsIn_close_chunk (i : Nat) (rest : List Char) :
    hrefsIn (renderOut [(i, str "</DL><p>")] ++ rest) = hrefsIn rest := by
  simp only [renderOut, write_indented, List.map_cons, List.map_nil,
    List.flatten_cons, List.flatten_nil, List.append_nil, List.nil_append,
    List.append_assoc, List.cons_append, List.singleton_append]
  rw [hrefsIn_spaces, hrefsIn_close_line, hrefsIn_nl]

theorem hrefsIn_dd_chunks (i : Nat) (l : List Anno) (X : List Char) :
    hrefsIn (renderOut (l.map
        (fun a => (i, str "<DD>" ++ html_escape (a.value.getD [])))) ++ X)
      = hrefsIn X := by
  induction l with
  | nil => rfl
  | cons a l' ih =>
    rw [List.map_cons, show ((i, str "<DD>" ++ html_escape (a.value.getD []))
        :: l'.map (fun a => (i, str "<DD>" ++ html_escape (a.value.getD []))))
      = [(i, str "<DD>" ++ html_escape (a.value.getD []))]
        ++ l'.map (fun a => (i, str "<DD>" ++ html_escape (a.value.getD [])))
      from rfl, renderOut_append, List.append_assoc]
    rw [show renderOut [(i, str "<DD>" ++ html_escape (a.value.getD []))]
        = List.replicate (INDENT_SIZE * i) ' '
          ++ (str "<DD>" ++ html_escape (a.value.getD []) ++ [nlChar]) from by
      simp [renderOut, write_indented]]
    simp only [List.append_assoc, List.singleton_append]
    rw [hrefsIn_spaces, hrefsIn_dd_pre, hrefsIn_escape, hrefsIn_nl]
    exact ih

theorem hrefsIn_bookmark_chunk (d : Node) (i : Nat) (rest : List Char) :
    hrefsIn (renderOut (write_bookmark d i) ++ rest)
      = html_escape (d.uri.getD []) :: hrefsIn rest := by
  rw [show write_bookmark d i
      = [(i, str "<DT><A HREF=\"" ++ html_escape (d.uri.getD [])
          ++ [quoteChar] ++ format_date_attributes d ++ str ">"
          ++ html_escape (d.title.getD (d.uri.getD [])) ++ str "</A>")]
        ++ (match d.annos with
            | some annos =>
                (annos.filter (fun a =>
                    a.name = some (str "bookmarkProperties/description"))).map
                  (fun a => (i, str "<DD>" ++ html_escape (a.value.getD [])))
            | none => []) from by
    rw [write_bookmark]
    rfl]
  rw [renderOut_append, List.append_assoc]
  rw [show renderOut [(i, str "<DT><A HREF=\"" ++ html_escape (d.uri.getD [])
        ++ [quoteChar] ++ format_date_attributes d ++ str ">"
        ++ html_escape (d.title.getD (d.uri.getD [])) ++ str "</A>")]
      = List.replicate (INDENT_SIZE * i) ' '
        ++ (str "<DT><A HREF=\"" ++ (html_escape (d.uri.getD [])
          ++ (quoteChar :: (format_date_attributes d ++ (str ">"
          ++ (html_escape (d.title.getD (d.uri.getD []))
            ++ (str "</A>" ++ [nlChar]))))))) from by
    simp [renderOut, write_indented]]
  simp only [List.append_assoc, List.cons_append, List.singleton_append]
  rw [hrefsIn_spaces, hrefsIn_at_mark, hrefsIn_mark_rest]
  simp only [List.nil_append]
  rw [hrefsIn_escape, hrefsIn_quote, hrefsIn_attrs, hrefsIn_gt,
    hrefsIn_escape, hrefsIn_close_a, hrefsIn_nl]
  congr 1
  · apply takeWhile_all_append_stop
    · intro x hx
      have := (mem_html_escape_not_special hx).2.2.1
      simp [this]
    · simp
  · cases d.annos with
    | none => simp [renderOut]
    | some annos => exact hrefsIn_dd_chunks i _ rest

mutual

theorem hrefsIn_convert (n : Node) (i : Nat) (rest : List Char) :
    hrefsIn (renderOut (convert_bookmarks_to_html n i) ++ rest)
      = (renderedUris n).map html_escape ++ hrefsIn rest := by
  cases n with
  | mk t u ch tc da lm an =>
    cases ch with
    | ofList cs =>
        rw [show convert_bookmarks_to_html (.mk t u (.ofList cs) tc da lm an) i
            = (if i = 0 then
                 write_html_header (t.getD (str "Bookmarks Menu"))
               else
                 write_folder (.mk t u (.ofList cs) tc da lm an) i)
              ++ convertChildren cs (i + 1)
              ++ [(i, str "</DL><p>")] from by
          simp [convert_bookmarks_to_html]]
        rw [renderOut_append, renderOut_append, List.append_assoc,
          List.append_assoc]
        rw [show renderedUris (.mk t u (.ofList cs) tc da lm an)
            = renderedUrisList cs from by simp [renderedUris]]
        have hrest := hrefsIn_convertChildren cs (i + 1)
          (renderOut [(i, str "</DL><p>")] ++ rest)
        by_cases hi : i = 0
        · rw [if_pos hi, hrefsIn_header_chunk, hrest, hrefsIn_close_chunk]
        · rw [if_neg hi, hrefsIn_folder_chunk, hrest, hrefsIn_close_chunk]
    | absent =>
        cases u with
        | some uri =>
            rw [show convert_bookmarks_to_html
                  (.mk t (some uri) .absent tc da lm an) i
                = write_bookmark (.mk t (some uri) .absent tc da lm an) i from by
              simp [convert_bookmarks_to_html]]
            rw [hrefsIn_bookmark_chunk]
            rfl
        | none => rfl
    | nonList =>
        cases u with
        | some uri =>
            rw [show convert_bookmarks_to_html
                  (.mk t (some uri) .nonList tc da lm an) i
                = write_bookmark (.mk t (some uri) .nonList tc da lm an) i from by
              simp [convert_bookmarks_to_html]]
            rw [hrefsIn_bookmark_chunk]
            rfl
        | none => rfl

theorem hrefsIn_convertChildren (cs : List Node) (i : Nat) (rest : List Char) :
    hrefsIn (renderOut (convertChildren cs i) ++ rest)
      = (renderedUrisList cs).map html_escape ++ hrefsIn rest := by
  cases cs with
  | nil => rfl
  | cons c cs' =>
      rw [show convertChildren (c :: cs') i
          = (if c.typeCode = some BOOKMARK_SEPARATOR_TYPE then []
             else convert_bookmarks_to_html c i) ++ convertChildren cs' i from by
        simp [convertChildren]]
      rw [show renderedUrisList (c :: cs')
          = (if c.typeCode = some BOOKMARK_SEPARATOR_TYPE then []
             else renderedUris c) ++ renderedUrisList cs' from by
        simp [renderedUrisList]]
      rw [renderOut_append, List.append_assoc]
      by_cases hc : c.typeCode = some BOOKMARK_SEPARATOR_TYPE
      · rw [if_pos hc, if_pos hc]
        rw [show renderOut ([] : List BWrite) = [] from rfl]
        rw [List.nil_append, List.nil_append]
        exact hrefsIn_convertChildren cs' i rest
      · rw [if_neg hc, if_neg hc]
        rw [hrefsIn_convert c i (renderOut (convertChildren cs' i) ++ rest)]
        rw [hrefsIn_convertChildren cs' i rest]
        rw [List.map_append, List.append_assoc]

end

/-- Budgeted floor-log2 computes the floor of the base-2 logarithm within
its budget. -/
theorem log2Fuel_correct (fuel : Nat) :
    ∀ n, 1 ≤ n → n < 2 ^ fuel →
      2 ^ log2Fuel fuel n ≤ n ∧ n < 2 ^ (log2Fuel fuel n + 1) := by
  induction fuel with
  | zero => intro n h1 h2; omega
  | succ fuel ih =>
    intro n h1 h2
    rw [log2Fuel]
    by_cases hn : n < 2
    · rw [if_pos hn]
      constructor
      · simpa using h1
      · simpa using hn
    · rw [if_neg hn]
      have hrec := ih (n / 2) (by omega)
        (by
          have : n / 2 < 2 ^ fuel ↔ n < 2 ^ fuel * 2 :=
            Nat.div_lt_iff_lt_mul (by omega)
          rw [this]
          calc n < 2 ^ (fuel + 1) := h2
            _ = 2 ^ fuel * 2 := by ring)
      obtain ⟨hlo, hhi⟩ := hrec
      constructor
      · calc 2 ^ (log2Fuel fuel (n / 2) + 1)
            = 2 * 2 ^ log2Fuel fuel (n / 2) := by ring
          _ ≤ 2 * (n / 2) := by omega
          _ ≤ n := by omega
      · calc n ≤ 2 * (n / 2) + 1 := by omega
          _ < 2 * 2 ^ (log2Fuel fuel (n / 2) + 1) := by omega
          _ = 2 ^ (log2Fuel fuel (n / 2) + 1 + 1) := by ring

/-- Round-half-even differs from the exact quotient by at most one half:
in integers, `2 * roundHalfEven n d * d` is within `d` of `2 * n`. -/
theorem roundHalfEven_bounds (n d : Nat) (hd : 0 < d) :
    2 * roundHalfEven n d * d ≤ 2 * n + d ∧
    2 * n ≤ 2 * roundHalfEven n d * d + d := by
  have hmod : n % d < d := Nat.mod_lt n hd
  have hdm : d * (n / d) + n % d = n := Nat.div_add_mod n d
  have hdm2 : n / d * d + n % d = n := by rw [Nat.mul_comm] at hdm; exact hdm
  rw [roundHalfEven]
  by_cases h1 : 2 * (n % d) < d
  · rw [if_pos h1]
    generalize n / d = q at *
    generalize n % d = r at *
    constructor <;> nlinarith
  · rw [if_neg h1]
    by_cases h2 : d < 2 * (n % d)
    · rw [if_pos h2]
      generalize n / d = q at *
      generalize n % d = r at *
      constructor <;> nlinarith
    · rw [if_neg h2]
      by_cases h3 : n / d % 2 = 0
      · rw [if_pos h3]
        generalize n / d = q at *
        generalize n % d = r at *
        constructor <;> nlinarith
      · rw [if_neg h3]
        generalize n / d = q at *
        generalize n % d = r at *
        constructor <;> nlinarith

set_option maxHeartbeats 1000000 in
/-- In the range where a half-ulp of the quotient is smaller than the
spacing of multiples of `1 / 1000000` (all `a < 2 ^ 34 * 10 ^ 6`), the
floor of the binary64-rounded quotient agrees with integer floor
division. -/
theorem floorRoundedDiv_eq_div (a : Nat) (h1 : 1 ≤ a)
    (h2 : a < 2 ^ 34 * 1000000) :
    floorRoundedDiv a 1000000 = a / 1000000 := by
  have hbpos : 0 < 1000000 := by norm_num
  have hN1 : 1 ≤ a * 2 ^ 64 / 1000000 := by
    rw [Nat.le_div_iff_mul_le hbpos]
    calc 1 * 1000000 = 1000000 := one_mul _
      _ ≤ 2 ^ 64 := by norm_num
      _ ≤ a * 2 ^ 64 := Nat.le_mul_of_pos_left _ h1
  have hNlt98 : a * 2 ^ 64 / 1000000 < 2 ^ 98 := by
    rw [Nat.div_lt_iff_lt_mul hbpos]
    calc a * 2 ^ 64 < (2 ^ 34 * 1000000) * 2 ^ 64 :=
          (Nat.mul_lt_mul_right (by positivity)).mpr h2
      _ = 2 ^ 98 * 1000000 := by ring
  have hN2048 : a * 2 ^ 64 / 1000000 < 2 ^ 2048 :=
    lt_of_lt_of_le hNlt98 (Nat.pow_le_pow_right (by omega) (by omega))
  obtain ⟨hlo, hhi⟩ := log2Fuel_correct 2048 (a * 2 ^ 64 / 1000000) hN1 hN2048
  have he97 : log2Fuel 2048 (a * 2 ^ 64 / 1000000) ≤ 97 := by
    by_contra hcon
    push_neg at hcon
    have h98 : (2:Nat) ^ 98 ≤ 2 ^ log2Fuel 2048 (a * 2 ^ 64 / 1000000) :=
      Nat.pow_le_pow_right (by omega) (by omega)
    omega
  set e' : Nat := log2Fuel 2048 (a * 2 ^ 64 / 1000000) with he'
  set K : Nat := 116 - e' with hK
  have hK19 : 19 ≤ K := by omega
  have hbinExp : binExp a 1000000 = (e' : Int) - 64 := by
    rw [binExp, ← he']
  have hKe : ((52 : Int) - ((e' : Int) - 64)).toNat = K := by omega
  have hm : mantissaOf a 1000000 = roundHalfEven (a * 2 ^ K) 1000000 := by
    rw [mantissaOf]
    rw [hbinExp]
    rw [if_pos (by omega : ((e' : Int) - 64) ≤ 52)]
    rw [hKe]
  obtain ⟨hub, hlb⟩ := roundHalfEven_bounds (a * 2 ^ K) 1000000 hbpos
  set m : Nat := roundHalfEven (a * 2 ^ K) 1000000 with hmdef
  have h2K : 1000000 < 2 * 2 ^ K := by
    have h19 : (2:Nat) ^ 19 ≤ 2 ^ K := Nat.pow_le_pow_right (by omega) hK19
    have hn : (1000000 : Nat) < 2 * 2 ^ 19 := by norm_num
    omega
  obtain ⟨q, r, hqdef, hrdef⟩ :
      ∃ q r, q = a / 1000000 ∧ r = a % 1000000 :=
    ⟨a / 1000000, a % 1000000, rfl, rfl⟩
  have ha : a = 1000000 * q + r := by
    rw [hqdef, hrdef]
    omega
  have hr : r < 1000000 := by
    rw [hrdef]
    exact Nat.mod_lt a hbpos
  have hlow : q * 2 ^ K ≤ m := by
    by_contra hcon
    push_neg at hcon
    have hstep : m + 1 ≤ q * 2 ^ K := hcon
    have hA : 2 * (1000000 * q) * 2 ^ K ≤ 2 * (a * 2 ^ K) := by
      have hqa : 1000000 * q ≤ a := by omega
      nlinarith
    have hB : 2 * (m + 1) * 1000000 ≤ 2 * (q * 2 ^ K) * 1000000 := by
      nlinarith
    nlinarith [hlb]
  have hhigh : m < (q + 1) * 2 ^ K := by
    by_contra hcon
    push_neg at hcon
    have hA : 2 * ((q + 1) * 2 ^ K) * 1000000 ≤ 2 * m * 1000000 := by
      nlinarith
    have hB : 2 * (a * 2 ^ K) + 1000000
        = 2 * (1000000 * q) * 2 ^ K + 2 * r * 2 ^ K + 1000000 := by
      rw [ha]
      ring
    nlinarith [hub, hr, h2K]
  have hfloor : floorRoundedDiv a 1000000 = m / 2 ^ K := by
    rw [floorRoundedDiv]
    rw [hbinExp, if_neg (by omega : ¬ (52 : Int) ≤ (e' : Int) - 64), hKe, hm]
  rw [hfloor, ← hqdef]
  exact Nat.div_eq_of_lt_le hlow hhigh

/-! ## Claim theorems -/

/-- Claim C1, counterexample: a non-separator node with a `uri` field need
not appear as an anchor at all — a node carrying both a `uri` and a
list-valued `children` is rendered as a folder, so the output of this tree
contains no anchor element although the claim's pre-order uri list for it
is nonempty. -/
theorem C1_counterexample :
    anchorsOf (convert_bookmarks_to_html bothNode 0) = [] ∧
    claimedUris bothNode = [str "https://both.example"] := by
  constructor
  · rfl
  · rfl

/-- Claim C1, amended: the anchors of the rendered output are exactly the
escaped `uri` values of the nodes the renderer classifies as bookmarks
(no list-valued `children`, a `uri` present, not skipped as a separator
child), once each, in depth-first pre-order; a node with a list-valued
`children` is rendered as a folder and contributes no anchor of its own,
and the separator check applies only to nodes reached as children, never
to the root. -/
theorem C1_amended (n : Node) :
    hrefsIn (renderOut (convert_bookmarks_to_html n 0)) =
      (renderedUris n).map html_escape ∧
    anchorsOf (convert_bookmarks_to_html n 0) =
      (renderedUris n).map html_escape := by
  constructor
  · have h := hrefsIn_convert n 0 []
    rw [List.append_nil] at h
    rw [h]
    rw [show hrefsIn [] = [] from rfl, List.append_nil]
  · exact anchorsOf_convert n 0

/-- Claim C2, counterexample: the emitted `<TITLE>` element does not carry
the root node's `title` — for a root titled `My Stuff` the output contains
no `<TITLE>My Stuff</TITLE>`; the fixed text `<TITLE>Bookmarks</TITLE>` is
emitted instead, and the root's title appears in the `<H1>` element. -/
theorem C2_counterexample :
    containsSub (str "<TITLE>My Stuff</TITLE>")
      (renderOut (convert_bookmarks_to_html myStuffRoot 0)) = false ∧
    containsSub (str "<TITLE>Bookmarks</TITLE>")
      (renderOut (convert_bookmarks_to_html myStuffRoot 0)) = true ∧
    containsSub (str "<H1>My Stuff</H1>")
      (renderOut (convert_bookmarks_to_html myStuffRoot 0)) = true := by
  refine ⟨?_, ?_, ?_⟩ <;> decide

/-- Claim C2, amended: at depth 0 the emitted document header consists of
the fixed doctype/comment/meta preamble, the fixed `<TITLE>Bookmarks</TITLE>`
element, and an `<H1>` heading whose text is the escaped root `title`
(the fixed fallback `Bookmarks Menu` when the root has no `title`),
followed by the opening list tag; for the input
`{"title": "Bookmarks Menu", "children": []}` the output is exactly the
header (with `<H1>Bookmarks Menu</H1>`) plus the closing list line and
nothing else. -/
theorem C2_amended :
    (∀ ttl u tc da lm an cs,
      convert_bookmarks_to_html (.mk (some ttl) u (.ofList cs) tc da lm an) 0 =
        (0, str "<!DOCTYPE NETSCAPE-Bookmark-file-1>\n<!-- This is an automatically generated file.\n    It will be read and overwritten.\n    DO NOT EDIT! -->\n<META HTTP-EQUIV=\"Content-Type\" CONTENT=\"text/html; charset=UTF-8\">\n<TITLE>Bookmarks</TITLE>\n<H1>"
           ++ html_escape ttl ++ str "</H1>\n<DL><p>")
        :: (convertChildren cs 1 ++ [(0, str "</DL><p>")])) ∧
    (∀ u tc da lm an cs,
      convert_bookmarks_to_html (.mk none u (.ofList cs) tc da lm an) 0 =
        (0, str "<!DOCTYPE NETSCAPE-Bookmark-file-1>\n<!-- This is an automatically generated file.\n    It will be read and overwritten.\n    DO NOT EDIT! -->\n<META HTTP-EQUIV=\"Content-Type\" CONTENT=\"text/html; charset=UTF-8\">\n<TITLE>Bookmarks</TITLE>\n<H1>"
           ++ html_escape (str "Bookmarks Menu") ++ str "</H1>\n<DL><p>")
        :: (convertChildren cs 1 ++ [(0, str "</DL><p>")])) ∧
    renderOut (convert_bookmarks_to_html
        (.mk (some (str "Bookmarks Menu")) none (.ofList []) none none none none) 0)
      = str "<!DOCTYPE NETSCAPE-Bookmark-file-1>\n<!-- This is an automatically generated file.\n    It will be read and overwritten.\n    DO NOT EDIT! -->\n<META HTTP-EQUIV=\"Content-Type\" CONTENT=\"text/html; charset=UTF-8\">\n<TITLE>Bookmarks</TITLE>\n<H1>Bookmarks Menu</H1>\n<DL><p>\n</DL><p>\n" := by
  refine ⟨?_, ?_, ?_⟩
  · intro ttl u tc da lm an cs
    simp [convert_bookmarks_to_html, write_html_header, str]
  · intro u tc da lm an cs
    simp [convert_bookmarks_to_html, write_html_header, str]
  · decide

/-- Claim C3, counterexample: a node with `typeCode = 3` does not always
contribute nothing — the separator check is only applied to children, so a
root with `typeCode = 3` is still rendered (here: the full document header
and closing list line). -/
theorem C3_counterexample :
    convert_bookmarks_to_html sepRoot 0 ≠ [] := by
  decide

/-- Claim C3, amended: every child with `typeCode = 3` is skipped together
with all of its descendants, and the remaining children are visited in
their original order — the child loop renders exactly the non-separator
children, in order; the root node itself is never separator-checked. -/
theorem C3_amended (cs : List Node) (i : Nat) :
    convertChildren cs i =
      ((cs.filter
          (fun c => ¬(c.typeCode = some BOOKMARK_SEPARATOR_TYPE))).map
        (fun c => convert_bookmarks_to_html c i)).flatten := by
  induction cs with
  | nil => rfl
  | cons c cs' ih =>
    rw [show convertChildren (c :: cs') i
        = (if c.typeCode = some BOOKMARK_SEPARATOR_TYPE then []
           else convert_bookmarks_to_html c i) ++ convertChildren cs' i from by
      simp [convertChildren]]
    rw [List.filter_cons]
    by_cases hc : c.typeCode = some BOOKMARK_SEPARATOR_TYPE
    · rw [if_pos hc, if_neg (by simp [hc])]
      rw [ih]
      rfl
    · rw [if_neg hc, if_pos (by simp [hc])]
      rw [List.map_cons, List.flatten_cons, ih]

/-- Claim C7, counterexample: a root with no `children` entry is not
rendered as a folder — it produces no output at all (empty output file),
not a document header. -/
theorem C7_counterexample :
    renderOut (convert_bookmarks_to_html titleOnlyRoot 0) = [] := by
  rfl

/-- Claim C7, amended: the root is rendered as a folder (document header
plus nested list) exactly when its `children` value is a list, even an
empty one; a root whose `children` key is absent produces no output at all
when it has no `uri`, and a single bookmark line when it has one. -/
theorem C7_amended :
    (∀ t tc da lm an,
      convert_bookmarks_to_html (.mk t none .absent tc da lm an) 0 = []) ∧
    (∀ t u tc da lm an,
      convert_bookmarks_to_html (.mk t (some u) .absent tc da lm an) 0 =
        write_bookmark (.mk t (some u) .absent tc da lm an) 0) ∧
    (∀ t u tc da lm an,
      convert_bookmarks_to_html (.mk t u (.ofList []) tc da lm an) 0 =
        write_html_header (t.getD (str "Bookmarks Menu"))
          ++ [(0, str "</DL><p>")]) := by
  refine ⟨?_, ?_, ?_⟩
  · intro t tc da lm an
    simp [convert_bookmarks_to_html]
  · intro t u tc da lm an
    simp [convert_bookmarks_to_html]
  · intro t u tc da lm an
    simp [convert_bookmarks_to_html, convertChildren]

/-- Claim C9: a node carrying both a list-valued `children` and a `uri` is
classified as a folder — the folder output (document header at depth 0, the
folder heading otherwise) followed by its children and the closing list
line — and never yields an anchor element of its own: the anchors of its
output are exactly those contributed by its children. -/
theorem C9_theorem (t : Option (List Char)) (u : List Char)
    (cs : List Node) (tc : Option Int) (da lm : Option TsVal)
    (an : Option (List Anno)) (i : Nat) :
    convert_bookmarks_to_html (.mk t (some u) (.ofList cs) tc da lm an) i =
      (if i = 0 then
         write_html_header (t.getD (str "Bookmarks Menu"))
       else
         write_folder (.mk t (some u) (.ofList cs) tc da lm an) i)
      ++ convertChildren cs (i + 1) ++ [(i, str "</DL><p>")] ∧
    anchorsOf (convert_bookmarks_to_html
        (.mk t (some u) (.ofList cs) tc da lm an) i) =
      (renderedUrisList cs).map html_escape := by
  constructor
  · simp [convert_bookmarks_to_html]
  · rw [anchorsOf_convert]
    rfl

/-- Claim C10: a node whose `children` value is present but not a list is
not treated as a folder — with a `uri` it is rendered as a single bookmark
anchor (plus description lines), and with no `uri` it produces no output
at all. -/
theorem C10_theorem (t : Option (List Char)) (u : List Char)
    (tc : Option Int) (da lm : Option TsVal) (an : Option (List Anno))
    (i : Nat) :
    convert_bookmarks_to_html (.mk t (some u) .nonList tc da lm an) i =
      write_bookmark (.mk t (some u) .nonList tc da lm an) i ∧
    convert_bookmarks_to_html (.mk t none .nonList tc da lm an) i = [] := by
  constructor
  · simp [convert_bookmarks_to_html]
  · simp [convert_bookmarks_to_html]

/-- Claim C4: `html_escape` rewrites each input character independently
(`escChar`), sending the five special characters to their entities —
ampersand first, so entities introduced later are not re-escaped; the
result contains no raw `<` `>` `"` `'`; every ampersand in the result
begins one of the five entities produced by the escaping itself; and empty
text escapes to the empty string. -/
theorem C4_theorem :
    (∀ s, html_escape s = s.flatMap escChar) ∧
    (escChar '&' = str "&amp;" ∧ escChar '<' = str "&lt;" ∧
     escChar '>' = str "&gt;" ∧ escChar quoteChar = str "&quot;" ∧
     escChar aposChar = str "&#x27;") ∧
    (∀ s, (html_escape s).all
        (fun c => !(c == '<') && !(c == '>') &&
                  !(c == quoteChar) && !(c == aposChar)) = true) ∧
    (∀ s, entityOk (html_escape s) = true) ∧
    html_escape [] = [] := by
  refine ⟨html_escape_eq_flatMap, by decide, ?_, entityOk_html_escape, rfl⟩
  intro s
  rw [List.all_eq_true]
  intro c hc
  obtain ⟨h1, h2, h3, h4⟩ := mem_html_escape_not_special hc
  simp [h1, h2, h3, h4]

/-- Claim C5, counterexample: the timestamp conversion is not integer
floor division by 1,000,000 — Python computes the floor of the binary64
quotient, and for `dateAdded = 34359738367999999` (that is,
`2 ^ 35 * 10 ^ 6 - 1`) the quotient rounds up to `2 ^ 35`, so the emitted
value is `34359738368` while floor division gives `34359738367`. -/
theorem C5_counterexample :
    convert_firefox_timestamp (.int 34359738367999999) = str "34359738368" ∧
    Int.fdiv 34359738367999999 1000000 = 34359738367 := by
  constructor
  · decide
  · decide

/-- Claim C5, amended: a present, convertible timestamp is turned into
whole seconds by taking the floor of the correctly-rounded binary64
quotient of the microsecond value by 1,000,000 (which agrees with integer
floor division except when rounding crosses an integer, as at
`34359738367999999`), and embedded as a quoted decimal `ADD_DATE` /
`LAST_MODIFIED` attribute — `dateAdded = 1700000000000000` yields
`ADD_DATE="1700000000"`; an absent, non-numeric or zero timestamp yields
no attribute, leaving the rest of the attribute string unchanged, and the
conversion raises only on quotients beyond the binary64 range.  For every
positive timestamp below `2 ^ 34 * 10 ^ 6` microseconds the rounded
quotient agrees with integer floor division. -/
theorem C5_amended :
    (∀ t u ch tc an,
      format_date_attributes
          (.mk t u ch tc (some (.int 1700000000000000)) none an) =
        str " ADD_DATE=\"1700000000\"") ∧
    (∀ t u ch tc an,
      format_date_attributes
          (.mk t u ch tc (some (.int 34359738367999999)) none an) =
        str " ADD_DATE=\"34359738368\"") ∧
    (∀ t u ch tc an,
      format_date_attributes
          (.mk t u ch tc none (some (.int 1700000000000000)) an) =
        str " LAST_MODIFIED=\"1700000000\"") ∧
    convert_firefox_timestamp .nonNumeric = [] ∧
    convert_firefox_timestamp (.int 0) = [] ∧
    (∀ t u ch tc lm an,
      format_date_attributes (.mk t u ch tc (some .nonNumeric) lm an) =
        format_date_attributes (.mk t u ch tc none lm an)) ∧
    (∀ t u ch tc lm an,
      format_date_attributes (.mk t u ch tc (some (.int 0)) lm an) =
        format_date_attributes (.mk t u ch tc none lm an)) ∧
    (∀ t u ch tc da an,
      format_date_attributes (.mk t u ch tc da (some .nonNumeric) an) =
        format_date_attributes (.mk t u ch tc da none an)) ∧
    (∀ t : Nat, 1 ≤ t → t < 2 ^ 34 * 1000000 →
      floorFloatDiv (t : Int) 1000000 = ((t / 1000000 : Nat) : Int)) := by
  refine ⟨?_, ?_, ?_, rfl, rfl, ?_, ?_, ?_, ?_⟩
  · intro t u ch tc an
    show str " ADD_DATE=\"" ++ convert_firefox_timestamp
        (.int 1700000000000000) ++ [quoteChar] ++ [] = _
    decide
  · intro t u ch tc an
    show str " ADD_DATE=\"" ++ convert_firefox_timestamp
        (.int 34359738367999999) ++ [quoteChar] ++ [] = _
    decide
  · intro t u ch tc an
    show [] ++ (str " LAST_MODIFIED=\"" ++ convert_firefox_timestamp
        (.int 1700000000000000) ++ [quoteChar]) = _
    decide
  · intro t u ch tc lm an
    rfl
  · intro t u ch tc lm an
    rfl
  · intro t u ch tc da an
    rfl
  · intro t ht1 ht2
    rw [floorFloatDiv, if_pos (by exact_mod_cast Nat.zero_le t)]
    rw [show ((t : Int)).toNat = t from rfl]
    rw [floorRoundedDiv_eq_div t ht1 ht2]

/-- Witness for the range conjunct of C5_amended, at the timestamp from
the claim. -/
theorem C5_amended_witness :
    floorFloatDiv (1700000000000000 : Int) 1000000 =
      ((1700000000000000 / 1000000 : Nat) : Int) :=
  C5_amended.2.2.2.2.2.2.2.2 1700000000000000 (by decide) (by decide)

/-- Claim C6, counterexample: the byte stream handed to the decompression
primitive starts at byte offset 12 of the file, not 18 — instrumenting the
loader with an identity decompressor and a parser that reports its input
shows all eight payload bytes of `c6File` (file offset 12 on) reaching the
parser, while the bytes from offset 18 on are only the last two. -/
theorem C6_counterexample :
    is_valid_jsonlz4_file c6File = true ∧
    decompress_jsonlz4 (fun bs _ => .ok bs)
        (fun bs => .error (bs.map Char.ofNat)) c6File =
      .error (str "JSON parsing error: ABCDEFGH") ∧
    c6File.drop 18 = (str "GH").map Char.toNat := by
  refine ⟨by decide, by rfl, by decide⟩

/-- Claim C6, amended: for a file recognised by its 6-byte signature, the
loader skips a fixed 12-byte header that includes the signature — the
compressed stream passed to the decompression primitive starts at byte
offset 12 of the file, and is decompressed with a 10 MiB
(`10485760`-byte) expected-output buffer before the result is parsed: the
loader's outcome depends on the decompressor only through its value on
`file.drop 12` and `10485760`. -/
theorem C6_amended
    (dec₁ dec₂ : List Nat → Nat → Except (List Char) (List Nat))
    (parse : List Nat → Except (List Char) Node) (file : List Nat)
    (h : dec₁ (file.drop 12) 10485760 = dec₂ (file.drop 12) 10485760) :
    decompress_jsonlz4 dec₁ parse file = decompress_jsonlz4 dec₂ parse file := by
  unfold decompress_jsonlz4
  dsimp only
  rw [show FIREFOX_LZ4_HEADER_SIZE = 12 from rfl,
      show DEFAULT_BUFFER_SIZE = 10485760 from rfl, h]

/-- Witness for C6_amended at a concrete file and two concrete
decompressors that agree on the passed stream but differ elsewhere. -/
theorem C6_amended_witness :
    decompress_jsonlz4 (fun bs _ => .ok bs)
        (fun _ => .ok sepRoot) c6File =
      decompress_jsonlz4 (fun bs n => if n = 0 then .error [] else .ok bs)
        (fun _ => .ok sepRoot) c6File :=
  C6_amended (fun bs _ => .ok bs)
    (fun bs n => if n = 0 then .error [] else .ok bs)
    (fun _ => .ok sepRoot) c6File (by rfl)

/-- Claim C8: when the input file carries the 6-byte signature but the
decompression primitive fails on the stream following the skipped header,
the process exits with status 1 after writing the decompression-error
message to the error stream, and no output file is created — the output
file is only opened after loading succeeds. -/
theorem C8_theorem
    (dec : List Nat → Nat → Except (List Char) (List Nat))
    (parse : List Nat → Except (List Char) Node) (file : List Nat)
    (e : List Char)
    (hsig : is_valid_jsonlz4_file file = true)
    (hdec : dec (file.drop FIREFOX_LZ4_HEADER_SIZE) DEFAULT_BUFFER_SIZE =
      .error e) :
    ff_bookmarks.main dec parse file =
      .exited (str "LZ4 decompression error: " ++ e) ∧
    ∀ c, ff_bookmarks.main dec parse file ≠ .wrote c := by
  have hmain : ff_bookmarks.main dec parse file =
      .exited (str "LZ4 decompression error: " ++ e) := by
    unfold ff_bookmarks.main
    rw [hsig]
    simp only [if_true]
    unfold decompress_jsonlz4
    dsimp only
    rw [hdec]
  exact ⟨hmain, fun c hc => by rw [hmain] at hc; exact Outcome.noConfusion hc⟩

/-- Witness for C8_theorem: a concrete signed file whose payload the
concrete decompressor rejects. -/
theorem C8_theorem_witness :
    ff_bookmarks.main (fun _ _ => .error (str "corrupt"))
        (fun _ => .error []) c6File =
      .exited (str "LZ4 decompression error: corrupt") ∧
    ∀ c, ff_bookmarks.main (fun _ _ => .error (str "corrupt"))
        (fun _ => .error []) c6File ≠ .wrote c := by
  have h := C8_theorem (fun _ _ => .error (str "corrupt"))
    (fun _ => .error []) c6File (str "corrupt") (by decide) rfl
  exact h
